import Mathlib

/-!
Verification of the sujay two-deck DJ mixing engine (packages/audio).

This file gives a shallow embedding of the parts of the engine that the
specification's claims talk about, translated from the Rust sources:

* `eq_processor.rs`  — biquad filters and the 3-band EQ with kill switches,
* `audio_engine.rs`  — deck/crossfade/channel state, the public operations
  (`seek`, `play`, `set_master_tempo`, `set_channel_config`,
  `start_crossfade`), the per-chunk crossfade and loop bookkeeping, the
  crossfader gain curve and the channel router `map_channels`,
* `beat_detector.rs` — the BPM octave folding, rounding, and the grid
  confidence score of `BeatDetector::detect`.

Floating-point samples and parameters are modelled as exact rationals (ℚ);
the crossfader curve, which uses `cos`/`sin`, is modelled over ℝ.  The
SoundTouch time stretcher is an external library treated as opaque by the
spec; chunk steps therefore take the number of input frames it consumed as
a parameter, and the stretcher state is modelled by its output reservoir
(cleared ⟷ empty list).
-/

set_option maxHeartbeats 1000000

namespace Sujay

/-- `FRAMES_PER_CHUNK` from `audio_engine.rs`. -/
def FRAMES_PER_CHUNK : ℕ := 2048

/-- Rust's `x.clamp(lo, hi)`: `lo` if `x < lo`, `hi` if `x > hi`, else `x`
(for `lo ≤ hi`). -/
def clampQ (x lo hi : ℚ) : ℚ := max lo (min x hi)

/-! ## Biquad filters and the 3-band EQ (`eq_processor.rs`) -/

/-- Biquad filter coefficients (Direct Form I), `BiquadCoefficients`. -/
structure BiquadCoefficients where
  b0 : ℚ
  b1 : ℚ
  b2 : ℚ
  a1 : ℚ
  a2 : ℚ
deriving DecidableEq

/-- Per-channel biquad delay line, `BiquadFilterChannel`. -/
structure BiquadFilterChannel where
  x1 : ℚ
  x2 : ℚ
  y1 : ℚ
  y2 : ℚ
deriving DecidableEq

/-- `BiquadFilterChannel::process`: one sample through the Direct Form I
biquad, returning the output and the updated delay line. -/
def BiquadFilterChannel.process (st : BiquadFilterChannel) (input : ℚ)
    (c : BiquadCoefficients) : ℚ × BiquadFilterChannel :=
  let output := c.b0 * input + c.b1 * st.x1 + c.b2 * st.x2
    - c.a1 * st.y1 - c.a2 * st.y2
  (output, { x1 := input, x2 := st.x1, y1 := output, y2 := st.y1 })

/-- Stereo biquad filter, `BiquadFilter`. -/
structure BiquadFilter where
  left : BiquadFilterChannel
  right : BiquadFilterChannel
deriving DecidableEq

/-- `BiquadFilter::process_interleaved` on an interleaved stereo buffer.
The Rust function mutates `buffer[..frames * 2]` in place; here the caller
passes exactly that prefix and receives the processed samples and the new
filter state.  (A trailing odd sample cannot arise from the engine, whose
buffers always hold `frames * 2` samples; it is passed through.) -/
def BiquadFilter.process_interleaved (c : BiquadCoefficients)
    (f : BiquadFilter) : List ℚ → List ℚ × BiquadFilter
  | l :: r :: rest =>
    let pl := f.left.process l c
    let pr := f.right.process r c
    let prest := BiquadFilter.process_interleaved c ⟨pl.2, pr.2⟩ rest
    (pl.1 :: pr.1 :: prest.1, prest.2)
  | other => (other, f)

/-- `EqCutState`: per-band kill switches. -/
structure EqCutState where
  low : Bool
  mid : Bool
  high : Bool
deriving DecidableEq

/-- `EqProcessor`: filter states, coefficients and kill switches.  In the
source, `EqProcessor::new` fills the coefficient fields from the 2nd-order
Butterworth prescription at 250 Hz / 5 kHz (Q = 1/√2, computed with
`cos`/`sin`); no claim depends on the coefficient values, so they are
carried as opaque rational fields here.  The scratch band buffers of the
Rust struct are allocation details and have no semantic content. -/
structure EqProcessor where
  low_filter1 : BiquadFilter
  low_filter2 : BiquadFilter
  low_coeffs : BiquadCoefficients
  mid_filter_low1 : BiquadFilter
  mid_filter_low2 : BiquadFilter
  mid_filter_high1 : BiquadFilter
  mid_filter_high2 : BiquadFilter
  mid_coeffs_low : BiquadCoefficients
  mid_coeffs_high : BiquadCoefficients
  high_filter1 : BiquadFilter
  high_filter2 : BiquadFilter
  high_coeffs : BiquadCoefficients
  cut_state : EqCutState
deriving DecidableEq

/-- Low band cascade: 2 × Butterworth LPF at 250 Hz applied in series to a
copy of the input.  Returns the band buffer and the two new filter states. -/
def EqProcessor.lowBand (p : EqProcessor) (input : List ℚ) :
    List ℚ × BiquadFilter × BiquadFilter :=
  let s1 := BiquadFilter.process_interleaved p.low_coeffs p.low_filter1 input
  let s2 := BiquadFilter.process_interleaved p.low_coeffs p.low_filter2 s1.1
  (s2.1, s1.2, s2.2)

/-- Mid band cascade: 2 × HPF at 250 Hz then 2 × LPF at 5 kHz in series. -/
def EqProcessor.midBand (p : EqProcessor) (input : List ℚ) :
    List ℚ × BiquadFilter × BiquadFilter × BiquadFilter × BiquadFilter :=
  let s1 := BiquadFilter.process_interleaved p.mid_coeffs_low p.mid_filter_low1 input
  let s2 := BiquadFilter.process_interleaved p.mid_coeffs_low p.mid_filter_low2 s1.1
  let s3 := BiquadFilter.process_interleaved p.mid_coeffs_high p.mid_filter_high1 s2.1
  let s4 := BiquadFilter.process_interleaved p.mid_coeffs_high p.mid_filter_high2 s3.1
  (s4.1, s1.2, s2.2, s3.2, s4.2)

/-- High band cascade: 2 × Butterworth HPF at 5 kHz in series. -/
def EqProcessor.highBand (p : EqProcessor) (input : List ℚ) :
    List ℚ × BiquadFilter × BiquadFilter :=
  let s1 := BiquadFilter.process_interleaved p.high_coeffs p.high_filter1 input
  let s2 := BiquadFilter.process_interleaved p.high_coeffs p.high_filter2 s1.1
  (s2.1, s1.2, s2.2)

/-- The band-mixing loop of `EqProcessor::process`: sample `i` of the
output is the sum of the band buffers whose cut flag is false. -/
def mixBands (low mid high : Bool) : List ℚ → List ℚ → List ℚ → List ℚ
  | a :: as, b :: bs, c :: cs =>
    ((if low then 0 else a) + (if mid then 0 else b) + (if high then 0 else c))
      :: mixBands low mid high as bs cs
  | _, _, _ => []

/-- `EqProcessor::process buffer frames`.  Returns the processed buffer and
the updated processor.  The Rust function mutates `buffer` in place and
only ever touches its first `frames * 2` samples; the remainder is
returned untouched.  (For a buffer shorter than `frames * 2` samples the
Rust code panics; all theorems assume `frames * 2 ≤ buffer.length`.) -/
def EqProcessor.process (p : EqProcessor) (buffer : List ℚ) (frames : ℕ) :
    List ℚ × EqProcessor :=
  let low := p.cut_state.low
  let mid := p.cut_state.mid
  let high := p.cut_state.high
  if low = false ∧ mid = false ∧ high = false then
    -- bypass EQ if no kills are active
    (buffer, p)
  else if low = true ∧ mid = true ∧ high = true then
    -- complete silence if all bands are killed
    (List.replicate (frames * 2) 0 ++ buffer.drop (frames * 2), p)
  else
    let samples := frames * 2
    let input := buffer.take samples
    let lowR := p.lowBand input
    let midR := p.midBand input
    let highR := p.highBand input
    let mixed := mixBands low mid high lowR.1 midR.1 highR.1
    (mixed ++ buffer.drop samples,
     { p with
        low_filter1 := lowR.2.1, low_filter2 := lowR.2.2,
        mid_filter_low1 := midR.2.1, mid_filter_low2 := midR.2.2.1,
        mid_filter_high1 := midR.2.2.2.1, mid_filter_high2 := midR.2.2.2.2,
        high_filter1 := highR.2.1, high_filter2 := highR.2.2 })

/-! ## Engine data model (`audio_engine.rs`) -/

/-- `CrossfadeDirection`. -/
inductive CrossfadeDirection where
  | AtoB
  | BtoA
deriving DecidableEq

/-- `CrossfadeState`. -/
structure CrossfadeState where
  /-- crossfader position, 0.0 = full A, 1.0 = full B -/
  position : ℚ
  /-- is an auto crossfade in progress -/
  active : Bool
  direction : Option CrossfadeDirection
  remaining_frames : ℕ
  total_frames : ℕ
  start_position : ℚ
  target_position : ℚ
deriving DecidableEq

/-- `CrossfadeState::default`. -/
def CrossfadeState.init : CrossfadeState :=
  { position := 0, active := false, direction := none, remaining_frames := 0,
    total_frames := 0, start_position := 0, target_position := 0 }

/-- `DeckState`.  The SoundTouch stretcher is external and opaque; the
`stretcher` field models its output reservoir, so `clear` empties it.  The
per-deck `EqProcessor` is modelled separately (above) and omitted here:
none of the engine-state claims reads or writes it. -/
structure DeckState where
  /-- PCM data (stereo interleaved) -/
  pcm_data : Option (List ℚ)
  /-- playback position in frames -/
  position : ℕ
  playing : Bool
  /-- track BPM if detected -/
  bpm : Option ℚ
  /-- playback rate, 1.0 = normal speed -/
  rate : ℚ
  /-- deck gain, 0.0 to 1.0 -/
  gain : ℚ
  track_id : Option String
  /-- time stretcher output reservoir; `clear` resets it to `[]` -/
  stretcher : List ℚ
  loop_enabled : Bool
  loop_start : ℕ
  loop_end : ℕ
deriving DecidableEq

/-- `DeckState::new`. -/
def DeckState.init : DeckState :=
  { pcm_data := none, position := 0, playing := false, bpm := none,
    rate := 1, gain := 1, track_id := none, stretcher := [],
    loop_enabled := false, loop_start := 0, loop_end := 0 }

/-- `ChannelConfig`. -/
structure ChannelConfig where
  output_channels : ℕ
  /-- main output channels (left, right) -/
  main_channels : Option ℕ × Option ℕ
  /-- cue output channels (left, right) -/
  cue_channels : Option ℕ × Option ℕ
  deck_a_cue : Bool
  deck_b_cue : Bool
deriving DecidableEq

/-- `ChannelConfig::default`. -/
def ChannelConfig.init : ChannelConfig :=
  { output_channels := 2, main_channels := (some 0, some 1),
    cue_channels := (none, none), deck_a_cue := false, deck_b_cue := false }

/-- `EngineState` (the fields the claims touch; the level meter, microphone,
sample queue and run flags are untouched by every operation modelled here). -/
structure EngineState where
  deck_a : DeckState
  deck_b : DeckState
  crossfade : CrossfadeState
  channel_config : ChannelConfig
  master_tempo : ℚ
  /-- pending state update reason, `none` = periodic -/
  update_reason : Option String
deriving DecidableEq

/-- `EngineState::new`. -/
def EngineState.init : EngineState :=
  { deck_a := DeckState.init, deck_b := DeckState.init,
    crossfade := CrossfadeState.init, channel_config := ChannelConfig.init,
    master_tempo := 130, update_reason := none }

/-! ## Engine operations -/

/-- `calculate_playback_rate`:
`clamp(master_tempo / bpm, 0.5, 2.0)` when the track BPM is known and
positive, `1.0` otherwise. -/
def calculate_playback_rate (track_bpm : Option ℚ) (master_tempo : ℚ) : ℚ :=
  match track_bpm with
  | some bpm => if 0 < bpm then clampQ (master_tempo / bpm) (1/2) 2 else 1
  | none => 1

/-- `AudioEngine::set_master_tempo`: a silent no-op outside `(0, 300]`,
otherwise stores the tempo and recomputes both decks' playback rates. -/
def set_master_tempo (s : EngineState) (bpm : ℚ) : EngineState :=
  if bpm ≤ 0 ∨ 300 < bpm then s
  else
    { s with
        master_tempo := bpm,
        deck_a := { s.deck_a with rate := calculate_playback_rate s.deck_a.bpm bpm },
        deck_b := { s.deck_b with rate := calculate_playback_rate s.deck_b.bpm bpm } }

/-- `AudioEngine::play`: sets `playing` only when the deck has PCM data;
any deck index other than 1 addresses deck B. -/
def play (s : EngineState) (deck : ℕ) : EngineState :=
  let s1 :=
    if deck = 1 then
      if s.deck_a.pcm_data.isSome then
        { s with deck_a := { s.deck_a with playing := true } }
      else s
    else
      if s.deck_b.pcm_data.isSome then
        { s with deck_b := { s.deck_b with playing := true } }
      else s
  { s1 with update_reason := some "play" }

/-- `AudioEngine::seek`: clamps the requested position to `[0, 1]`, and if
the deck has PCM sets `position = (total_frames as f64 * position) as usize`
(truncation) and clears the stretcher.  A deck with no PCM is untouched.
In both cases `update_reason` becomes `"seek"`. -/
def seek (s : EngineState) (deck : ℕ) (position : ℚ) : EngineState :=
  let position := clampQ position 0 1
  if deck = 1 then
    match s.deck_a.pcm_data with
    | some pcm =>
      let total_frames := pcm.length / 2
      { s with
          deck_a := { s.deck_a with
            position := (Int.floor ((total_frames : ℚ) * position)).toNat,
            stretcher := [] },
          update_reason := some "seek" }
    | none => { s with update_reason := some "seek" }
  else
    match s.deck_b.pcm_data with
    | some pcm =>
      let total_frames := pcm.length / 2
      { s with
          deck_b := { s.deck_b with
            position := (Int.floor ((total_frames : ℚ) * position)).toNat,
            stretcher := [] },
          update_reason := some "seek" }
    | none => { s with update_reason := some "seek" }

/-- `AudioEngine::set_channel_config`: installs the four channel mappings
(`-1` = disabled) and recomputes `output_channels` as the largest mapped
index plus one (`1 + 1 = 2` when nothing is mapped).  The stored slot
indices and the channel count are `u16` in the source: the `as u16` casts
truncate to the low 16 bits (the values cast are never negative here, so
this is reduction mod 2^16), and the `u16` sum `max_channel + 1` wraps mod
2^16 as well (release semantics; a debug build would panic at 65535). -/
def set_channel_config (s : EngineState)
    (main_left main_right cue_left cue_right : ℤ) : EngineState :=
  let slot := fun (c : ℤ) => if 0 ≤ c then some (c.toNat % 65536) else none
  let max_channel :=
    ((([main_left, main_right, cue_left, cue_right].filter
        (fun c => decide (0 ≤ c))).max?).getD 1).toNat % 65536
  { s with channel_config := { s.channel_config with
      main_channels := (slot main_left, slot main_right),
      cue_channels := (slot cue_left, slot cue_right),
      output_channels := (max_channel + 1) % 65536 } }

/-- `AudioEngine::start_crossfade`: clamps the target (defaulting to 1.0
when deck A is playing, else 0.0), sets the direction by comparing with the
current position, and arms the crossfade with
`total_frames = (duration * sample_rate) as usize` (truncating, saturating
at 0 for negative durations). -/
def start_crossfade (s : EngineState) (sample_rate : ℕ)
    (target_position : Option ℚ) (duration : ℚ) : EngineState :=
  let current := s.crossfade.position
  let target :=
    match target_position with
    | some p => clampQ p 0 1
    | none => if s.deck_a.playing then 1 else 0
  let direction :=
    if current < target then CrossfadeDirection.AtoB else CrossfadeDirection.BtoA
  let total_frames := (Int.floor (duration * (sample_rate : ℚ))).toNat
  { s with crossfade :=
      { position := current, active := true, direction := some direction,
        remaining_frames := total_frames, total_frames := total_frames,
        start_position := current, target_position := target } }

/-- The auto-crossfade block of `process_audio_chunk` (one chunk of
`frames` frames).  When a crossfade is active with frames remaining, the
remaining count drops by `frames` (saturating).  On reaching zero the
position snaps to the target, the source deck of the direction stops and
the target deck starts, and `active`/`direction` are cleared; otherwise the
position is interpolated and the target deck is forced playing. -/
def crossfade_chunk_step (frames : ℕ) (s : EngineState) : EngineState :=
  if s.crossfade.active = true ∧ 0 < s.crossfade.remaining_frames then
    let rem := s.crossfade.remaining_frames - frames
    if rem = 0 then
      let s1 := { s with crossfade :=
        { s.crossfade with
          remaining_frames := 0
          position := s.crossfade.target_position
          active := false
          direction := none } }
      match s.crossfade.direction with
      | some CrossfadeDirection.AtoB =>
        { s1 with
          deck_a := { s1.deck_a with playing := false }
          deck_b := { s1.deck_b with playing := true } }
      | some CrossfadeDirection.BtoA =>
        { s1 with
          deck_b := { s1.deck_b with playing := false }
          deck_a := { s1.deck_a with playing := true } }
      | none => s1
    else
      let progress : ℚ := 1 - (rem : ℚ) / (s.crossfade.total_frames : ℚ)
      let pos := s.crossfade.start_position
        + (s.crossfade.target_position - s.crossfade.start_position) * progress
      let s1 := { s with crossfade :=
        { s.crossfade with remaining_frames := rem, position := pos } }
      match s.crossfade.direction with
      | some CrossfadeDirection.AtoB =>
        if s.deck_b.playing then s1
        else { s1 with deck_b := { s1.deck_b with playing := true } }
      | some CrossfadeDirection.BtoA =>
        if s.deck_a.playing then s1
        else { s1 with deck_a := { s1.deck_a with playing := true } }
      | none => s1
  else s

/-- The per-deck position bookkeeping of `process_audio_chunk` for one
chunk.  `consumed` is the number of input frames the (opaque) SoundTouch
stretcher reported consuming.  After advancing, a deck whose position
reached `loop_end` with the loop enabled wraps to `loop_start` (clearing
the stretcher); otherwise a deck that reached the end of its track stops
and rewinds. -/
def deck_chunk_step (consumed : ℕ) (d : DeckState) : DeckState :=
  if d.playing = true then
    match d.pcm_data with
    | some pcm =>
      let total_frames := pcm.length / 2
      let pos1 := d.position + consumed
      if d.loop_enabled = true ∧ d.loop_end ≤ pos1 then
        { d with position := d.loop_start, stretcher := [] }
      else if total_frames ≤ pos1 then
        { d with playing := false, position := 0, stretcher := [] }
      else
        { d with position := pos1 }
    | none => d
  else d

/-! ## Crossfader gain curve (`process_audio_chunk`, lines 1298–1316)

The Pioneer-style constant-power curve uses `cos`/`sin`, so this fragment
is modelled over ℝ. -/

/-- `gain_a`: the crossfade curve gain of deck A at crossfader position
`position`, zero when deck A is not playing. -/
noncomputable def curve_gain_a (deck_a_playing : Bool) (position : ℝ) : ℝ :=
  if deck_a_playing then Real.cos (position * Real.pi / 2) else 0

/-- `gain_b`: the crossfade curve gain of deck B, zero when not playing. -/
noncomputable def curve_gain_b (deck_b_playing : Bool) (position : ℝ) : ℝ :=
  if deck_b_playing then Real.sin (position * Real.pi / 2) else 0

/-- `deck_a_gain` / `deck_b_gain`: final per-deck gain, the curve gain
multiplied by the deck's stored gain. -/
noncomputable def final_deck_gain (curve_gain deck_gain : ℝ) : ℝ :=
  curve_gain * deck_gain

/-! ## Channel router (`map_channels`) and chunk output -/

/-- The body of the per-frame loop of `map_channels`: writes the main mix
and (when requested) the cue signal of frame `frame` into `out`.  List
writes out of range are no-ops in Lean (`List.set`); in the engine every
mapped index is `< output_channels`, so the translation agrees there. -/
def route_frame (cfg : ChannelConfig) (mix buffer_a buffer_b : List ℚ)
    (out_ch : ℕ) (out : List ℚ) (frame : ℕ) : List ℚ :=
  let mix_base := frame * 2
  let out_base := frame * out_ch
  let main_left := mix.getD mix_base 0
  let main_right := (mix.get? (mix_base + 1)).getD main_left
  let mono_main := (main_left + main_right) * (1/2)
  let out1 :=
    match cfg.main_channels with
    | (some l, some r) => (out.set (out_base + l) main_left).set (out_base + r) main_right
    | (some l, none) => out.set (out_base + l) mono_main
    | (none, some r) => out.set (out_base + r) mono_main
    | (none, none) => out
  let cue_enabled := cfg.deck_a_cue || cfg.deck_b_cue
  if cue_enabled = true ∧ (cfg.cue_channels.1.isSome ∨ cfg.cue_channels.2.isSome) then
    let cue_left_a := if cfg.deck_a_cue then buffer_a.getD mix_base 0 else 0
    let cue_right_a :=
      if cfg.deck_a_cue then (buffer_a.get? (mix_base + 1)).getD (buffer_a.getD mix_base 0) else 0
    let cue_left_b := if cfg.deck_b_cue then buffer_b.getD mix_base 0 else 0
    let cue_right_b :=
      if cfg.deck_b_cue then (buffer_b.get? (mix_base + 1)).getD (buffer_b.getD mix_base 0) else 0
    let cue_sources : ℕ :=
      (if cfg.deck_a_cue then 1 else 0) + (if cfg.deck_b_cue then 1 else 0)
    if 0 < cue_sources then
      let norm : ℚ := 1 / (cue_sources : ℚ)
      let cue_left := clampQ ((cue_left_a + cue_left_b) * norm) (-1) 1
      let cue_right := clampQ ((cue_right_a + cue_right_b) * norm) (-1) 1
      let mono_cue := (cue_left + cue_right) * (1/2)
      match cfg.cue_channels with
      | (some l, some r) => (out1.set (out_base + l) cue_left).set (out_base + r) cue_right
      | (some l, none) => out1.set (out_base + l) mono_cue
      | (none, some r) => out1.set (out_base + r) mono_cue
      | (none, none) => out1
    else out1
  else out1

/-- `map_channels`: emits `frames * output_channels` samples, routing the
stereo mix to the main channels and the cue taps to the cue channels, and
clamps every emitted sample to `[-1, 1]` as its final step. -/
def map_channels (mix : List ℚ) (frames : ℕ) (output_channels : ℕ)
    (cfg : ChannelConfig) (buffer_a buffer_b : List ℚ) : List ℚ :=
  let init := List.replicate (frames * output_channels) 0
  let filled := (List.range frames).foldl
    (fun out frame => route_frame cfg mix buffer_a buffer_b output_channels out frame) init
  filled.map (fun s => clampQ s (-1) 1)

/-- `needs_channel_mapping` from `process_audio_chunk`: channel mapping is
required unless the device is plain stereo with no cue routing at all. -/
def needs_channel_mapping (cfg : ChannelConfig) (output_channels : ℕ) : Bool :=
  decide (output_channels ≠ 2) || cfg.deck_a_cue || cfg.deck_b_cue
    || cfg.cue_channels.1.isSome || cfg.cue_channels.2.isSome

/-- The output stage of `process_audio_chunk`: `map_channels` when mapping
is needed, otherwise the fast path that clamps the stereo mix buffer and
emits it verbatim. -/
def chunk_output (cfg : ChannelConfig) (output_channels : ℕ)
    (mix buffer_a buffer_b : List ℚ) (frames : ℕ) : List ℚ :=
  if needs_channel_mapping cfg output_channels then
    map_channels mix frames output_channels cfg buffer_a buffer_b
  else
    mix.map (fun s => clampQ s (-1) 1)

/-! ## Beat detector (`beat_detector.rs`) -/

/-- The first octave-folding loop of `BeatDetector::detect`:
`while refined_bpm < 80.0 { refined_bpm *= 2.0 }`.  The Rust loop only
terminates for positive BPM (and `estimate_tempo_from_odf` only produces
positive BPM), which the guard records. -/
def fold_up (b : ℚ) : ℚ :=
  if h : 0 < b ∧ b < 80 then fold_up (2 * b) else b
termination_by (Int.ceil (80 / b)).toNat
decreasing_by
  obtain ⟨hb, hlt⟩ := h
  have hx : (1 : ℚ) < 80 / b := (one_lt_div hb).mpr hlt
  have hc2 : (2 : ℤ) ≤ Int.ceil (80 / b) := by
    have h1c : (1 : ℤ) < Int.ceil (80 / b) := Int.lt_ceil.mpr (by exact_mod_cast hx)
    omega
  have hkey : Int.ceil (80 / (2 * b)) < Int.ceil (80 / b) := by
    have h1 : 80 / (2 * b) = (80 / b) / 2 := by
      rw [div_div, mul_comm]
    have h2 : (80 / b) / 2 ≤ ((Int.ceil (80 / b) : ℚ)) / 2 := by
      have := Int.le_ceil (80 / b)
      linarith
    have h3 : ((Int.ceil (80 / b) : ℚ)) / 2 ≤ ((Int.ceil (80 / b) : ℚ)) - 1 := by
      have : (2 : ℚ) ≤ ((Int.ceil (80 / b) : ℚ)) := by exact_mod_cast hc2
      linarith
    have h4 : Int.ceil (80 / (2 * b)) ≤ Int.ceil (80 / b) - 1 := by
      apply Int.ceil_le.mpr
      push_cast
      rw [h1]
      linarith
    omega
  omega

/-- The second octave-folding loop of `BeatDetector::detect`:
`while refined_bpm > 170.0 { refined_bpm /= 2.0 }`. -/
def fold_down (b : ℚ) : ℚ :=
  if h : 170 < b then fold_down (b / 2) else b
termination_by (Int.ceil b).toNat
decreasing_by
  have hc : (171 : ℤ) ≤ Int.ceil b := by
    have : (170 : ℤ) < Int.ceil b := by
      apply Int.lt_ceil.mpr
      exact_mod_cast h
    omega
  have hkey : Int.ceil (b / 2) < Int.ceil b := by
    have h2 : b / 2 ≤ ((Int.ceil b : ℚ)) / 2 := by
      have := Int.le_ceil b
      linarith
    have h4 : Int.ceil (b / 2) ≤ Int.ceil b - 1 := by
      apply Int.ceil_le.mpr
      push_cast
      linarith
    omega
  omega

/-- `(refined_bpm * 100.0).round() / 100.0`: round to 2 decimal places.
Rust rounds halves away from zero; for the non-negative values that occur
here this agrees with Mathlib's `round` (halves up). -/
def round_to_2 (x : ℚ) : ℚ := ((round (x * 100) : ℤ) : ℚ) / 100

/-- The BPM refinement performed by `BeatDetector::detect` on the raw tempo
estimate: fold into the 80–170 DJ range by octave doubling/halving, then
round to 2 decimals. -/
def refine_bpm (b : ℚ) : ℚ := round_to_2 (fold_down (fold_up b))

/-- `f32::MAX`, the initial accumulator of the closest-grid-beat fold. -/
def f32Max : ℚ := 340282346638528859811704183484516925440

/-- The per-beat term of `calculate_grid_confidence`'s error sum: the
distance to the closest grid beat scored against the 50 ms tolerance. -/
def beat_score (grid_beats : List ℚ) (detected : ℚ) : ℚ :=
  let tolerance : ℚ := 1/20
  let min_dist := (grid_beats.map (fun grid => |detected - grid|)).foldl min f32Max
  if min_dist < tolerance then min_dist / tolerance else 1

/-- `BeatDetector::calculate_grid_confidence`: mean per-beat alignment
error against the grid (50 ms tolerance), mapped to the 0–5.32 scale. -/
def calculate_grid_confidence (detected_beats grid_beats : List ℚ) : ℚ :=
  if detected_beats = [] ∨ grid_beats = [] then 0
  else
    let total_error := (detected_beats.map (beat_score grid_beats)).sum
    let avg_error := total_error / (detected_beats.length : ℚ)
    max (1 - avg_error) 0 * (532/100)

/-! ## Claim C1: crossfader constant-power curve -/

/-- Claim C1: for every crossfader position `p ∈ [0,1]` computed by a
processed chunk, the curve gain of deck A is `cos(p·π/2)` when deck A is
playing and `0` otherwise, the curve gain of deck B is `sin(p·π/2)` when
deck B is playing and `0` otherwise, the final per-deck gain is the curve
gain times the deck's stored gain, and when both decks are playing the
squared curve gains sum to 1 (constant power). -/
theorem claim_C1_crossfader_constant_power (p : ℝ) (play_a play_b : Bool)
    (gain_a gain_b : ℝ) (_h0 : 0 ≤ p) (_h1 : p ≤ 1) :
    (play_a = true → curve_gain_a play_a p = Real.cos (p * Real.pi / 2)) ∧
    (play_a = false → curve_gain_a play_a p = 0) ∧
    (play_b = true → curve_gain_b play_b p = Real.sin (p * Real.pi / 2)) ∧
    (play_b = false → curve_gain_b play_b p = 0) ∧
    final_deck_gain (curve_gain_a play_a p) gain_a = curve_gain_a play_a p * gain_a ∧
    final_deck_gain (curve_gain_b play_b p) gain_b = curve_gain_b play_b p * gain_b ∧
    (play_a = true → play_b = true →
      curve_gain_a play_a p ^ 2 + curve_gain_b play_b p ^ 2 = 1) := by
  refine ⟨?_, ?_, ?_, ?_, rfl, rfl, ?_⟩
  · intro h; simp [curve_gain_a, h]
  · intro h; simp [curve_gain_a, h]
  · intro h; simp [curve_gain_b, h]
  · intro h; simp [curve_gain_b, h]
  · intro ha hb
    simp only [curve_gain_a, curve_gain_b, ha, hb, if_true]
    exact Real.cos_sq_add_sin_sq (p * Real.pi / 2)

/-- Witness for C1 at `p = 0`, both decks playing, both gains 1. -/
theorem claim_C1_witness :
    (0 : ℝ) ≤ 0 ∧ (0 : ℝ) ≤ 1 ∧
      curve_gain_a true 0 ^ 2 + curve_gain_b true 0 ^ 2 = 1 :=
  ⟨le_refl 0, by norm_num,
    (claim_C1_crossfader_constant_power 0 true true 1 1 (le_refl 0)
      (by norm_num)).2.2.2.2.2.2 rfl rfl⟩

/-! ## Claim C6: `set_master_tempo` range check and rate recomputation -/

/-- Claim C6: `set_master_tempo bpm` with `bpm` outside `(0, 300]` leaves
the engine state unchanged; inside the range it stores the tempo and
recomputes both decks' rates as `clamp(master/source, 0.5, 2.0)` when the
source BPM is known and positive, and `1.0` otherwise. -/
theorem claim_C6_set_master_tempo (s : EngineState) (bpm : ℚ) :
    ((bpm ≤ 0 ∨ 300 < bpm) → set_master_tempo s bpm = s) ∧
    (0 < bpm → bpm ≤ 300 →
      (set_master_tempo s bpm).master_tempo = bpm ∧
      (∀ b, s.deck_a.bpm = some b → 0 < b →
        (set_master_tempo s bpm).deck_a.rate = clampQ (bpm / b) (1/2) 2) ∧
      (∀ b, s.deck_a.bpm = some b → b ≤ 0 →
        (set_master_tempo s bpm).deck_a.rate = 1) ∧
      (s.deck_a.bpm = none → (set_master_tempo s bpm).deck_a.rate = 1) ∧
      (∀ b, s.deck_b.bpm = some b → 0 < b →
        (set_master_tempo s bpm).deck_b.rate = clampQ (bpm / b) (1/2) 2) ∧
      (∀ b, s.deck_b.bpm = some b → b ≤ 0 →
        (set_master_tempo s bpm).deck_b.rate = 1) ∧
      (s.deck_b.bpm = none → (set_master_tempo s bpm).deck_b.rate = 1)) := by
  constructor
  · intro hout
    simp [set_master_tempo, hout]
  · intro h1 h2
    have hcond : ¬ (bpm ≤ 0 ∨ 300 < bpm) := by
      push_neg
      exact ⟨h1, h2⟩
    refine ⟨by simp [set_master_tempo, hcond], ?_, ?_, ?_, ?_, ?_, ?_⟩
    · intro b hb hbpos
      simp [set_master_tempo, hcond, calculate_playback_rate, hb, hbpos]
    · intro b hb hbneg
      simp [set_master_tempo, hcond, calculate_playback_rate, hb, not_lt.mpr hbneg]
    · intro hb
      simp [set_master_tempo, hcond, calculate_playback_rate, hb]
    · intro b hb hbpos
      simp [set_master_tempo, hcond, calculate_playback_rate, hb, hbpos]
    · intro b hb hbneg
      simp [set_master_tempo, hcond, calculate_playback_rate, hb, not_lt.mpr hbneg]
    · intro hb
      simp [set_master_tempo, hcond, calculate_playback_rate, hb]

/-- Witness for C6: both branches exercised on concrete states. -/
theorem claim_C6_witness :
    set_master_tempo EngineState.init 500 = EngineState.init ∧
    (set_master_tempo EngineState.init 100).master_tempo = 100 :=
  ⟨(claim_C6_set_master_tempo EngineState.init 500).1 (by norm_num),
   ((claim_C6_set_master_tempo EngineState.init 100).2 (by norm_num)
      (by norm_num)).1⟩

/-! ## Claim C9: `play` on an empty deck is a guarded no-op -/

/-- Claim C9: calling `play deck` on a deck with no PCM data loaded leaves
both decks (and the rest of the modelled state) unchanged — in particular
a deck whose playing flag was false stays false — and only records
`update_reason = "play"`. -/
theorem claim_C9_play_empty_deck (s : EngineState) (deck : ℕ)
    (h : (if deck = 1 then s.deck_a.pcm_data else s.deck_b.pcm_data) = none) :
    play s deck = { s with update_reason := some "play" } ∧
    ((if deck = 1 then s.deck_a.playing else s.deck_b.playing) = false →
      (if deck = 1 then (play s deck).deck_a.playing
       else (play s deck).deck_b.playing) = false) := by
  by_cases hd : deck = 1
  · simp only [hd, if_true] at h ⊢
    constructor
    · simp [play, h]
    · intro hp
      simp [play, h, hp]
  · simp only [hd, if_false] at h ⊢
    constructor
    · simp [play, hd, h]
    · intro hp
      simp [play, hd, h, hp]

/-- Witness for C9 on the freshly constructed engine (deck B empty). -/
theorem claim_C9_witness :
    play EngineState.init 2
      = { EngineState.init with update_reason := some "play" } :=
  (claim_C9_play_empty_deck EngineState.init 2 (by decide)).1

/-! ## Claim C10: `set_channel_config` channel-count recomputation -/

/-- For a non-empty list of non-negative integers, the `max?.getD 1` of the
implementation agrees with a fold of `max` from `0`. -/
theorem max?_getD_eq_foldl (l : List ℤ) (hne : l ≠ [])
    (hnn : ∀ x ∈ l, 0 ≤ x) : (l.max?).getD 1 = l.foldl max 0 := by
  match l, hne with
  | a :: t, _ =>
    have ha : max 0 a = a := max_eq_right (hnn a (by simp))
    rw [List.max?_cons', List.foldl_cons, ha]
    simp

/-- A fold of `max` over values bounded by `B` from a seed bounded by `B`
stays bounded by `B`. -/
theorem foldl_max_le :
    ∀ (l : List ℤ) (init B : ℤ), init ≤ B → (∀ x ∈ l, x ≤ B) →
      l.foldl max init ≤ B
  | [], _, _, hi, _ => hi
  | x :: xs, init, B, hi, hl => by
    rw [List.foldl_cons]
    exact foldl_max_le xs _ B (max_le hi (hl x (by simp)))
      (fun y hy => hl y (by simp [hy]))

/-- Counterexample to C10 as stated: the stored slot index and the channel
count are `u16`, so the `as u16` casts wrap modulo 2^16.  With
`main_left = 70000` the code stores `Some(70000 mod 65536) = Some(4464)`
and `output_channels = 4465` — not `Some(70000)` and `70001` as the claim's
unbounded reading asserts. -/
theorem claim_C10_counterexample :
    (set_channel_config EngineState.init 70000 (-1) (-1) (-1)).channel_config.main_channels.1
      = some 4464 ∧
    (set_channel_config EngineState.init 70000 (-1) (-1) (-1)).channel_config.output_channels
      = 4465 ∧
    ¬ ((set_channel_config EngineState.init 70000 (-1) (-1) (-1)).channel_config.main_channels.1
        = some (Int.toNat 70000)) ∧
    ¬ ((set_channel_config EngineState.init 70000 (-1) (-1) (-1)).channel_config.output_channels
        = Int.toNat 70000 + 1) := by
  refine ⟨?_, ?_, ?_, ?_⟩ <;> decide

/-- Claim C10 (amended): `set_channel_config` stores `Some` in a mapping
slot exactly when its argument is non-negative — the stored index being the
argument reduced modulo 2^16 by the `u16` cast — and recomputes the output
channel count as the `u16`-wrapped maximum non-negative argument plus one
(wrapping modulo 2^16), or 2 when all four arguments are negative.  For
arguments below 65535 (every index a real device could expose) no wrapping
occurs and the count is exactly one plus the maximum non-negative
argument. -/
theorem claim_C10_set_channel_config (s : EngineState)
    (main_left main_right cue_left cue_right : ℤ)
    (_h : True) :
    ((set_channel_config s main_left main_right cue_left cue_right).channel_config.main_channels.1
        = if 0 ≤ main_left then some (main_left.toNat % 65536) else none) ∧
    ((set_channel_config s main_left main_right cue_left cue_right).channel_config.main_channels.2
        = if 0 ≤ main_right then some (main_right.toNat % 65536) else none) ∧
    ((set_channel_config s main_left main_right cue_left cue_right).channel_config.cue_channels.1
        = if 0 ≤ cue_left then some (cue_left.toNat % 65536) else none) ∧
    ((set_channel_config s main_left main_right cue_left cue_right).channel_config.cue_channels.2
        = if 0 ≤ cue_right then some (cue_right.toNat % 65536) else none) ∧
    (main_left < 0 → main_right < 0 → cue_left < 0 → cue_right < 0 →
      (set_channel_config s main_left main_right cue_left cue_right).channel_config.output_channels
        = 2) ∧
    ((0 ≤ main_left ∨ 0 ≤ main_right ∨ 0 ≤ cue_left ∨ 0 ≤ cue_right) →
      (set_channel_config s main_left main_right cue_left cue_right).channel_config.output_channels
        = ((([main_left, main_right, cue_left, cue_right].filter
              (fun c => decide (0 ≤ c))).foldl max 0).toNat % 65536 + 1) % 65536) ∧
    ((0 ≤ main_left ∨ 0 ≤ main_right ∨ 0 ≤ cue_left ∨ 0 ≤ cue_right) →
      main_left ≤ 65534 → main_right ≤ 65534 → cue_left ≤ 65534 → cue_right ≤ 65534 →
      (set_channel_config s main_left main_right cue_left cue_right).channel_config.output_channels
        = (([main_left, main_right, cue_left, cue_right].filter
              (fun c => decide (0 ≤ c))).foldl max 0).toNat + 1) := by
  have hwrapped : (0 ≤ main_left ∨ 0 ≤ main_right ∨ 0 ≤ cue_left ∨ 0 ≤ cue_right) →
      (set_channel_config s main_left main_right cue_left cue_right).channel_config.output_channels
        = ((([main_left, main_right, cue_left, cue_right].filter
              (fun c => decide (0 ≤ c))).foldl max 0).toNat % 65536 + 1) % 65536 := by
    intro h
    have hnn : ∀ x ∈ [main_left, main_right, cue_left, cue_right].filter
        (fun c => decide (0 ≤ c)), 0 ≤ x := by
      intro x hx
      simpa using List.of_mem_filter hx
    have hne : [main_left, main_right, cue_left, cue_right].filter
        (fun c => decide (0 ≤ c)) ≠ [] := by
      rcases h with h | h | h | h
      · exact List.ne_nil_of_mem (List.mem_filter.mpr
          ⟨(by simp : main_left ∈ [main_left, main_right, cue_left, cue_right]), by simpa⟩)
      · exact List.ne_nil_of_mem (List.mem_filter.mpr
          ⟨(by simp : main_right ∈ [main_left, main_right, cue_left, cue_right]), by simpa⟩)
      · exact List.ne_nil_of_mem (List.mem_filter.mpr
          ⟨(by simp : cue_left ∈ [main_left, main_right, cue_left, cue_right]), by simpa⟩)
      · exact List.ne_nil_of_mem (List.mem_filter.mpr
          ⟨(by simp : cue_right ∈ [main_left, main_right, cue_left, cue_right]), by simpa⟩)
    have himpl : (set_channel_config s main_left main_right cue_left
          cue_right).channel_config.output_channels
        = (((([main_left, main_right, cue_left, cue_right].filter
              (fun c => decide (0 ≤ c))).max?).getD 1).toNat % 65536 + 1) % 65536 := rfl
    rw [himpl, max?_getD_eq_foldl _ hne hnn]
  refine ⟨rfl, rfl, rfl, rfl, ?_, hwrapped, ?_⟩
  · intro h1 h2 h3 h4
    have e1 : ¬ (0 ≤ main_left) := not_le.mpr h1
    have e2 : ¬ (0 ≤ main_right) := not_le.mpr h2
    have e3 : ¬ (0 ≤ cue_left) := not_le.mpr h3
    have e4 : ¬ (0 ≤ cue_right) := not_le.mpr h4
    simp [set_channel_config, e1, e2, e3, e4]
  · intro h hb1 hb2 hb3 hb4
    rw [hwrapped h]
    have hbound : ([main_left, main_right, cue_left, cue_right].filter
        (fun c => decide (0 ≤ c))).foldl max 0 ≤ 65534 := by
      apply foldl_max_le _ _ _ (by norm_num)
      intro x hx
      have hmem := List.mem_of_mem_filter hx
      simp only [List.mem_cons, List.not_mem_nil, or_false] at hmem
      rcases hmem with rfl | rfl | rfl | rfl
      · exact hb1
      · exact hb2
      · exact hb3
      · exact hb4
    have hnat : (([main_left, main_right, cue_left, cue_right].filter
        (fun c => decide (0 ≤ c))).foldl max 0).toNat ≤ 65534 := by omega
    omega

/-- Witness for C10 (amended): the all-disabled branch, the wrapped formula
and the unwrapped in-range formula on concrete arguments. -/
theorem claim_C10_witness :
    (set_channel_config EngineState.init (-1) (-1) (-1) (-1)).channel_config.output_channels
      = 2 ∧
    (set_channel_config EngineState.init 70000 (-1) (-1) (-1)).channel_config.output_channels
      = ((([(70000 : ℤ), -1, -1, -1].filter
            (fun c => decide (0 ≤ c))).foldl max 0).toNat % 65536 + 1) % 65536 ∧
    (set_channel_config EngineState.init 0 1 2 5).channel_config.output_channels
      = (([0, 1, 2, 5].filter (fun c => decide ((0:ℤ) ≤ c))).foldl max 0).toNat + 1 :=
  ⟨(claim_C10_set_channel_config EngineState.init (-1) (-1) (-1) (-1)
      trivial).2.2.2.2.1 (by norm_num) (by norm_num) (by norm_num) (by norm_num),
   (claim_C10_set_channel_config EngineState.init 70000 (-1) (-1) (-1)
      trivial).2.2.2.2.2.1 (Or.inl (by norm_num)),
   (claim_C10_set_channel_config EngineState.init 0 1 2 5
      trivial).2.2.2.2.2.2 (Or.inl (by norm_num)) (by norm_num) (by norm_num)
      (by norm_num) (by norm_num)⟩

/-! ## Claim C5: `seek` — truncation, not rounding -/

/-- A concrete state for the C5 counterexample: deck A holds 3 frames of
stereo PCM (6 samples). -/
def seekCEState : EngineState :=
  { EngineState.init with
      deck_a := { DeckState.init with pcm_data := some [0, 0, 0, 0, 0, 0] } }

/-- Counterexample to C5 as stated: with 3 total frames and `q = 1/2`,
the code computes `(3 * 0.5) as usize = 1`, while
`round(total_frames * clamp(q, 0, 1)) = round(1.5) = 2`. -/
theorem claim_C5_counterexample :
    (seek seekCEState 1 (1/2)).deck_a.position = 1 ∧
    (round ((3 : ℚ) * clampQ (1/2) 0 1)).toNat = 2 ∧
    (seek seekCEState 1 (1/2)).deck_a.position
      ≠ (round ((3 : ℚ) * clampQ (1/2) 0 1)).toNat := by
  have hclamp : clampQ (1/2) 0 1 = 1/2 := by
    simp only [clampQ]
    norm_num
  have hpos : (seek seekCEState 1 (1/2)).deck_a.position = 1 := by
    simp only [seek, seekCEState, EngineState.init, DeckState.init, hclamp]
    norm_num
  have hround : (round ((3 : ℚ) * clampQ (1/2) 0 1)).toNat = 2 := by
    rw [hclamp, round_eq]
    norm_num
    rfl
  exact ⟨hpos, hround, by rw [hpos, hround]; omega⟩

/-- Claim C5 (amended): after `seek deck q` on a deck with PCM of
`total_frames` frames, the position is `⌊total_frames * clamp(q,0,1)⌋`
(truncation, as performed by Rust's `as usize` cast, not rounding), the
time stretcher is cleared, and the position never exceeds `total_frames`;
a seek on a deck with no PCM leaves the position unchanged. -/
theorem claim_C5_seek_truncates (s : EngineState) (deck : ℕ) (q : ℚ)
    (_h : True) :
    (∀ pcm, (if deck = 1 then s.deck_a.pcm_data else s.deck_b.pcm_data) = some pcm →
      (if deck = 1 then (seek s deck q).deck_a.position
       else (seek s deck q).deck_b.position)
        = (Int.floor (((pcm.length / 2 : ℕ) : ℚ) * clampQ q 0 1)).toNat ∧
      (if deck = 1 then (seek s deck q).deck_a.stretcher
       else (seek s deck q).deck_b.stretcher) = [] ∧
      (if deck = 1 then (seek s deck q).deck_a.position
       else (seek s deck q).deck_b.position) ≤ pcm.length / 2) ∧
    ((if deck = 1 then s.deck_a.pcm_data else s.deck_b.pcm_data) = none →
      (if deck = 1 then (seek s deck q).deck_a.position
       else (seek s deck q).deck_b.position)
        = (if deck = 1 then s.deck_a.position else s.deck_b.position)) := by
  have hclamp_le : clampQ q 0 1 ≤ 1 := by
    simp only [clampQ]
    exact max_le (by norm_num) (min_le_right _ _)
  constructor
  · intro pcm hpcm
    have hbound : ∀ n : ℕ, (Int.floor ((n : ℚ) * clampQ q 0 1)).toNat ≤ n := by
      intro n
      have h1 : (n : ℚ) * clampQ q 0 1 ≤ (n : ℚ) := by
        calc (n : ℚ) * clampQ q 0 1 ≤ (n : ℚ) * 1 := by
              apply mul_le_mul_of_nonneg_left hclamp_le (by positivity)
          _ = (n : ℚ) := mul_one _
      have h2 : Int.floor ((n : ℚ) * clampQ q 0 1) ≤ (n : ℤ) := by
        rw [Int.floor_le_iff]
        push_cast
        linarith
      omega
    by_cases hd : deck = 1
    · simp only [hd, if_true] at hpcm ⊢
      refine ⟨?_, ?_, ?_⟩ <;> simp [seek, hpcm, hbound]
    · simp only [hd, if_false] at hpcm ⊢
      refine ⟨?_, ?_, ?_⟩ <;> simp [seek, hd, hpcm, hbound]
  · intro hpcm
    by_cases hd : deck = 1
    · simp only [hd, if_true] at hpcm ⊢
      simp [seek, hpcm]
    · simp only [hd, if_false] at hpcm ⊢
      simp [seek, hd, hpcm]

/-- Witness for C5 (amended) on the counterexample state: 3 frames,
`q = 1/2`, position lands on frame 1 with the stretcher cleared. -/
theorem claim_C5_witness :
    (seek seekCEState 1 (1/2)).deck_a.position
      = (Int.floor ((3 : ℚ) * clampQ (1/2) 0 1)).toNat ∧
    (seek seekCEState 1 (1/2)).deck_a.stretcher = [] := by
  have h := (claim_C5_seek_truncates seekCEState 1 (1/2) trivial).1
    [0, 0, 0, 0, 0, 0] rfl
  exact ⟨by simpa using h.1, by simpa using h.2.1⟩

/-! ## Claim C4: auto-crossfade termination -/

/-- The crossfade block is skipped entirely when no frames remain — even if
the crossfade is still flagged active. -/
theorem crossfade_chunk_step_of_rem_zero (f : ℕ) (s : EngineState)
    (h : s.crossfade.remaining_frames = 0) : crossfade_chunk_step f s = s := by
  simp [crossfade_chunk_step, h]

/-- An active crossfade chunk step drops `remaining_frames` by the chunk
size, saturating at zero. -/
theorem crossfade_chunk_step_decrements (f : ℕ) (s : EngineState)
    (hact : s.crossfade.active = true) (hpos : 0 < s.crossfade.remaining_frames) :
    (crossfade_chunk_step f s).crossfade.remaining_frames
      = s.crossfade.remaining_frames - f := by
  simp only [crossfade_chunk_step]
  rw [if_pos ⟨hact, hpos⟩]
  by_cases hz : s.crossfade.remaining_frames - f = 0
  · rw [if_pos hz, hz]
    cases hd : s.crossfade.direction with
    | none => simp
    | some d => cases d <;> simp
  · rw [if_neg hz]
    cases hd : s.crossfade.direction with
    | none => simp
    | some d =>
      cases d
      · by_cases hp : s.deck_b.playing <;> simp [hp]
      · by_cases hp : s.deck_a.playing <;> simp [hp]

/-- Fields of an active crossfade chunk step that does not yet finish. -/
theorem crossfade_chunk_step_progress (f : ℕ) (s : EngineState)
    (hact : s.crossfade.active = true) (hpos : 0 < s.crossfade.remaining_frames)
    (hnz : s.crossfade.remaining_frames - f ≠ 0) :
    (crossfade_chunk_step f s).crossfade.active = true ∧
    (crossfade_chunk_step f s).crossfade.remaining_frames
      = s.crossfade.remaining_frames - f ∧
    (crossfade_chunk_step f s).crossfade.direction = s.crossfade.direction ∧
    (crossfade_chunk_step f s).crossfade.target_position
      = s.crossfade.target_position := by
  simp only [crossfade_chunk_step]
  rw [if_pos ⟨hact, hpos⟩, if_neg hnz]
  cases hd : s.crossfade.direction with
  | none => simp [hact]
  | some d =>
    cases d
    · by_cases hp : s.deck_b.playing <;> simp [hp, hact]
    · by_cases hp : s.deck_a.playing <;> simp [hp, hact]

/-- Fields of the completing crossfade chunk step: position snaps to the
target, flags are cleared, and the decks are switched per direction. -/
theorem crossfade_chunk_step_complete (f : ℕ) (s : EngineState)
    (d : CrossfadeDirection)
    (hact : s.crossfade.active = true) (hpos : 0 < s.crossfade.remaining_frames)
    (hdir : s.crossfade.direction = some d)
    (hz : s.crossfade.remaining_frames - f = 0) :
    (crossfade_chunk_step f s).crossfade.active = false ∧
    (crossfade_chunk_step f s).crossfade.direction = none ∧
    (crossfade_chunk_step f s).crossfade.position = s.crossfade.target_position ∧
    (d = CrossfadeDirection.AtoB →
      (crossfade_chunk_step f s).deck_a.playing = false ∧
      (crossfade_chunk_step f s).deck_b.playing = true) ∧
    (d = CrossfadeDirection.BtoA →
      (crossfade_chunk_step f s).deck_b.playing = false ∧
      (crossfade_chunk_step f s).deck_a.playing = true) := by
  simp only [crossfade_chunk_step]
  rw [if_pos ⟨hact, hpos⟩, if_pos hz, hdir]
  cases d <;> simp

/-- Core induction for C4: any state with an active, directed crossfade and
at least one remaining frame reaches, after finitely many chunk steps, the
completed state. -/
theorem crossfade_run (d : CrossfadeDirection) (rem : ℕ) :
    0 < rem → ∀ t : EngineState, t.crossfade.active = true →
      t.crossfade.remaining_frames = rem → t.crossfade.direction = some d →
      ∃ n : ℕ,
        ((crossfade_chunk_step FRAMES_PER_CHUNK)^[n] t).crossfade.active = false ∧
        ((crossfade_chunk_step FRAMES_PER_CHUNK)^[n] t).crossfade.direction = none ∧
        ((crossfade_chunk_step FRAMES_PER_CHUNK)^[n] t).crossfade.position
          = t.crossfade.target_position ∧
        (d = CrossfadeDirection.AtoB →
          ((crossfade_chunk_step FRAMES_PER_CHUNK)^[n] t).deck_a.playing = false ∧
          ((crossfade_chunk_step FRAMES_PER_CHUNK)^[n] t).deck_b.playing = true) ∧
        (d = CrossfadeDirection.BtoA →
          ((crossfade_chunk_step FRAMES_PER_CHUNK)^[n] t).deck_b.playing = false ∧
          ((crossfade_chunk_step FRAMES_PER_CHUNK)^[n] t).deck_a.playing = true) := by
  induction rem using Nat.strong_induction_on with
  | _ rem ih =>
    intro hrpos t hact hrem hdir
    have hpos : 0 < t.crossfade.remaining_frames := by omega
    by_cases hz : t.crossfade.remaining_frames - FRAMES_PER_CHUNK = 0
    · refine ⟨1, ?_⟩
      rw [Function.iterate_one]
      exact crossfade_chunk_step_complete FRAMES_PER_CHUNK t d hact hpos hdir hz
    · obtain ⟨h1, h2, h3, h4⟩ :=
        crossfade_chunk_step_progress FRAMES_PER_CHUNK t hact hpos hz
      have hchunk : 0 < FRAMES_PER_CHUNK := by norm_num [FRAMES_PER_CHUNK]
      have hlt : t.crossfade.remaining_frames - FRAMES_PER_CHUNK < rem := by omega
      obtain ⟨n, hn1, hn2, hn3, hn4, hn5⟩ :=
        ih (t.crossfade.remaining_frames - FRAMES_PER_CHUNK) hlt (by omega)
          (crossfade_chunk_step FRAMES_PER_CHUNK t) h1 h2 (h3.trans hdir)
      refine ⟨n + 1, ?_, ?_, ?_, ?_, ?_⟩ <;>
        rw [Function.iterate_succ_apply]
      · exact hn1
      · exact hn2
      · exact hn3.trans h4
      · exact hn4
      · exact hn5

/-- Claim C4 (amended): every auto-crossfade started by `start_crossfade`
whose frame count `trunc(duration * sample_rate)` is at least one frame
terminates: each chunk decreases `remaining_frames` by the chunk size
(saturating), and once it reaches zero the crossfader position equals the
target, `active` and `direction` are cleared, and per direction the source
deck is stopped while the target deck plays.  (A crossfade whose duration
truncates to zero frames never completes; see the counterexample.) -/
theorem claim_C4_crossfade_terminates (s : EngineState) (sample_rate : ℕ)
    (target : Option ℚ) (duration : ℚ)
    (h : 0 < (start_crossfade s sample_rate target duration).crossfade.remaining_frames) :
    (∀ t : EngineState, ∀ f : ℕ, t.crossfade.active = true →
      0 < t.crossfade.remaining_frames →
      (crossfade_chunk_step f t).crossfade.remaining_frames
        = t.crossfade.remaining_frames - f) ∧
    (∃ n : ℕ,
      ((crossfade_chunk_step FRAMES_PER_CHUNK)^[n]
          (start_crossfade s sample_rate target duration)).crossfade.active = false ∧
      ((crossfade_chunk_step FRAMES_PER_CHUNK)^[n]
          (start_crossfade s sample_rate target duration)).crossfade.direction = none ∧
      ((crossfade_chunk_step FRAMES_PER_CHUNK)^[n]
          (start_crossfade s sample_rate target duration)).crossfade.position
        = (start_crossfade s sample_rate target duration).crossfade.target_position ∧
      ((start_crossfade s sample_rate target duration).crossfade.direction
          = some CrossfadeDirection.AtoB →
        ((crossfade_chunk_step FRAMES_PER_CHUNK)^[n]
            (start_crossfade s sample_rate target duration)).deck_a.playing = false ∧
        ((crossfade_chunk_step FRAMES_PER_CHUNK)^[n]
            (start_crossfade s sample_rate target duration)).deck_b.playing = true) ∧
      ((start_crossfade s sample_rate target duration).crossfade.direction
          = some CrossfadeDirection.BtoA →
        ((crossfade_chunk_step FRAMES_PER_CHUNK)^[n]
            (start_crossfade s sample_rate target duration)).deck_b.playing = false ∧
        ((crossfade_chunk_step FRAMES_PER_CHUNK)^[n]
            (start_crossfade s sample_rate target duration)).deck_a.playing = true)) := by
  constructor
  · intro t f hact hpos
    exact crossfade_chunk_step_decrements f t hact hpos
  · obtain ⟨d0, hd0⟩ : ∃ d0,
        (start_crossfade s sample_rate target duration).crossfade.direction
          = some d0 := ⟨_, rfl⟩
    obtain ⟨n, hn1, hn2, hn3, hn4, hn5⟩ :=
      crossfade_run d0 _ h (start_crossfade s sample_rate target duration)
        rfl rfl hd0
    refine ⟨n, hn1, hn2, hn3, ?_, ?_⟩
    · intro hAB
      rw [hd0] at hAB
      exact hn4 (by injection hAB)
    · intro hBA
      rw [hd0] at hBA
      exact hn5 (by injection hBA)

/-- Witness for C4 on a concrete crossfade: deck A playing, target 1.0,
one-second duration at 44100 Hz. -/
theorem claim_C4_witness :
    ∃ n : ℕ,
      ((crossfade_chunk_step FRAMES_PER_CHUNK)^[n]
          (start_crossfade
            { EngineState.init with
                deck_a := { DeckState.init with playing := true } }
            44100 (some 1) 1)).crossfade.active = false := by
  have h : 0 < (start_crossfade
      { EngineState.init with deck_a := { DeckState.init with playing := true } }
      44100 (some 1) 1).crossfade.remaining_frames := by
    simp only [start_crossfade]
    norm_num
  obtain ⟨n, hn1, _⟩ := (claim_C4_crossfade_terminates _ 44100 (some 1) 1 h).2
  exact ⟨n, hn1⟩

/-- The state reached by starting a zero-duration crossfade on a fresh
engine with deck A playing: `total_frames = 0`. -/
def crossfadeStuckState : EngineState :=
  start_crossfade
    { EngineState.init with deck_a := { DeckState.init with playing := true } }
    44100 (some 1) 0

/-- Counterexample to C4 as stated: a crossfade started with duration 0
computes `remaining_frames = 0`, so the per-chunk crossfade block never
runs again — the crossfade stays active forever (here: it is a fixed point
of the chunk step, still active after 1000 chunks), the position never
snaps to the target and the decks are never switched. -/
theorem claim_C4_counterexample :
    crossfadeStuckState.crossfade.active = true ∧
    crossfade_chunk_step FRAMES_PER_CHUNK crossfadeStuckState = crossfadeStuckState ∧
    ((crossfade_chunk_step FRAMES_PER_CHUNK)^[1000]
        crossfadeStuckState).crossfade.active = true := by
  have hrem : crossfadeStuckState.crossfade.remaining_frames = 0 := by
    simp only [crossfadeStuckState, start_crossfade]
    norm_num
  have hfix : crossfade_chunk_step FRAMES_PER_CHUNK crossfadeStuckState
      = crossfadeStuckState := crossfade_chunk_step_of_rem_zero _ _ hrem
  have hactive : crossfadeStuckState.crossfade.active = true := by
    simp only [crossfadeStuckState, start_crossfade]
  refine ⟨hactive, hfix, ?_⟩
  rw [Function.iterate_fixed hfix 1000]
  exact hactive

/-! ## Claim C7: loop law -/

/-- The loop invariant preserved by every chunk: the deck keeps playing
with the same PCM and loop region, and its position stays inside
`[loop_start, loop_end)`. -/
def LoopInv (d0 d : DeckState) : Prop :=
  d.playing = true ∧ d.loop_enabled = true ∧ d.pcm_data = d0.pcm_data ∧
  d.loop_start = d0.loop_start ∧ d.loop_end = d0.loop_end ∧
  d0.loop_start ≤ d.position ∧ d.position < d0.loop_end

/-- One chunk preserves the loop invariant, provided the loop region ends
no later than the track (as `set_loop`/`set_beat_loop` guarantee). -/
theorem deck_chunk_step_loop_inv (d0 : DeckState)
    (hval : ∀ pcm, d0.pcm_data = some pcm → d0.loop_end ≤ pcm.length / 2)
    (c : ℕ) (d : DeckState) (hinv : LoopInv d0 d) :
    LoopInv d0 (deck_chunk_step c d) := by
  obtain ⟨hpl, hen, hpcm, hls, hle, hlo, hhi⟩ := hinv
  unfold deck_chunk_step
  rw [hpl, if_pos rfl]
  split
  case h_2 => exact ⟨hpl, hen, hpcm, hls, hle, hlo, hhi⟩
  case h_1 pcm hp =>
    have hend : d0.loop_end ≤ pcm.length / 2 := hval pcm (hpcm ▸ hp)
    by_cases hwrap : d.loop_enabled = true ∧ d.loop_end ≤ d.position + c
    · rw [if_pos hwrap]
      exact ⟨rfl, hen, hpcm, hls, hle, by dsimp only; omega, by dsimp only; omega⟩
    · rw [if_neg hwrap]
      have hlt : d.position + c < d.loop_end := by
        rcases not_and_or.mp hwrap with h | h
        · exact absurd hen h
        · omega
      rw [if_neg (by omega : ¬ (pcm.length / 2 ≤ d.position + c))]
      exact ⟨rfl, hen, hpcm, hls, hle, by dsimp only; omega, by dsimp only; omega⟩

/-- The loop invariant survives any sequence of chunk steps. -/
theorem foldl_loop_inv (d0 : DeckState)
    (hval : ∀ pcm, d0.pcm_data = some pcm → d0.loop_end ≤ pcm.length / 2) :
    ∀ (cs : List ℕ) (d : DeckState), LoopInv d0 d →
      LoopInv d0 (cs.foldl (fun acc c => deck_chunk_step c acc) d)
  | [], d, hinv => hinv
  | c :: rest, d, hinv => by
    rw [List.foldl_cons]
    exact foldl_loop_inv d0 hval rest (deck_chunk_step c d)
      (deck_chunk_step_loop_inv d0 hval c d hinv)

/-- On a wrapping chunk the step resets the position and clears the
stretcher (the reset-and-clear half of C7). -/
theorem deck_chunk_step_wraps (c : ℕ) (t : DeckState) (pcm : List ℚ)
    (htpl : t.playing = true) (hten : t.loop_enabled = true)
    (htp : t.pcm_data = some pcm) (hpast : t.loop_end ≤ t.position + c) :
    deck_chunk_step c t = { t with position := t.loop_start, stretcher := [] } := by
  unfold deck_chunk_step
  rw [htpl, if_pos rfl]
  split
  case h_2 hp2 => rw [htp] at hp2; cases hp2
  case h_1 pcm2 hp2 =>
    rw [htp] at hp2
    injection hp2 with he
    subst he
    rw [if_pos ⟨hten, hpast⟩]

/-- Claim C7 (amended): a playing deck with an enabled, valid loop region
(`loop_start ≤ position < loop_end ≤ total_frames`) keeps its position in
`[loop_start, loop_end)` over arbitrarily many processed chunks, whatever
the stretcher consumes; and whenever a chunk advances the position to
`loop_end` or beyond, the position is reset to `loop_start` and the time
stretcher is cleared.  (Starting outside the loop region breaks the
membership part; see the counterexample.) -/
theorem claim_C7_loop_invariant (d : DeckState) (cs : List ℕ)
    (hen : d.loop_enabled = true) (hpl : d.playing = true)
    (hlo : d.loop_start ≤ d.position) (hhi : d.position < d.loop_end)
    (hval : ∀ pcm, d.pcm_data = some pcm → d.loop_end ≤ pcm.length / 2) :
    (d.loop_start ≤ (cs.foldl (fun acc c => deck_chunk_step c acc) d).position ∧
     (cs.foldl (fun acc c => deck_chunk_step c acc) d).position < d.loop_end) ∧
    (∀ c : ℕ, ∀ t : DeckState, ∀ pcm, t.playing = true → t.loop_enabled = true →
      t.pcm_data = some pcm → t.loop_end ≤ t.position + c →
      (deck_chunk_step c t).position = t.loop_start ∧
      (deck_chunk_step c t).stretcher = []) := by
  constructor
  · have hfold := foldl_loop_inv d hval cs d ⟨hpl, hen, rfl, rfl, rfl, hlo, hhi⟩
    exact ⟨hfold.2.2.2.2.2.1, hfold.2.2.2.2.2.2⟩
  · intro c t pcm htpl hten htp hpast
    rw [deck_chunk_step_wraps c t pcm htpl hten htp hpast]
    exact ⟨rfl, rfl⟩

/-- Witness for C7: a deck looping frames `[4, 6)` of a 6-frame track,
position 4, three chunks each consuming one frame: position advances
4 → 5 → wraps to 4 → 5, staying inside the loop. -/
theorem claim_C7_witness :
    (([1, 1, 1] : List ℕ).foldl (fun acc c => deck_chunk_step c acc)
        { DeckState.init with
            pcm_data := some (List.replicate 12 0), playing := true,
            loop_enabled := true, loop_start := 4, loop_end := 6,
            position := 4 }).position < 6 := by
  have h := (claim_C7_loop_invariant
    { DeckState.init with
        pcm_data := some (List.replicate 12 0), playing := true,
        loop_enabled := true, loop_start := 4, loop_end := 6, position := 4 }
    [1, 1, 1] rfl rfl (by norm_num) (by norm_num)
    (by intro pcm hp; injection hp with hp2; rw [← hp2]; simp)).1
  exact h.2

/-- A deck with an enabled loop `[4, 6)` but position 0, before the loop. -/
def loopOutsideDeck : DeckState :=
  { DeckState.init with
      pcm_data := some (List.replicate 12 0), playing := true,
      loop_enabled := true, loop_start := 4, loop_end := 6 }

/-- Counterexample to C7 as stated: with `loop_enabled` and playing but the
position (0) before `loop_start` (4), one processed chunk consuming one
frame leaves the position at 1, outside `[loop_start, loop_end)` — the
claimed membership does not hold for every deck with `loop_enabled` and
playing. -/
theorem claim_C7_counterexample :
    loopOutsideDeck.loop_enabled = true ∧ loopOutsideDeck.playing = true ∧
    (deck_chunk_step 1 loopOutsideDeck).position = 1 ∧
    ¬ (loopOutsideDeck.loop_start ≤ (deck_chunk_step 1 loopOutsideDeck).position) := by
  refine ⟨rfl, rfl, ?_, ?_⟩ <;> decide

/-! ## Claim C2: `EqProcessor::process` contract -/

/-- `process_interleaved` preserves the buffer length. -/
theorem process_interleaved_length (c : BiquadCoefficients) :
    ∀ (f : BiquadFilter) (buf : List ℚ),
      ((BiquadFilter.process_interleaved c f buf).1).length = buf.length
  | _, [] => rfl
  | _, [_] => rfl
  | f, l :: r :: rest => by
    simp [BiquadFilter.process_interleaved, process_interleaved_length c _ rest]

/-- The low band cascade preserves the buffer length. -/
theorem lowBand_length (p : EqProcessor) (input : List ℚ) :
    ((p.lowBand input).1).length = input.length := by
  simp [EqProcessor.lowBand, process_interleaved_length]

/-- The mid band cascade preserves the buffer length. -/
theorem midBand_length (p : EqProcessor) (input : List ℚ) :
    ((p.midBand input).1).length = input.length := by
  simp [EqProcessor.midBand, process_interleaved_length]

/-- The high band cascade preserves the buffer length. -/
theorem highBand_length (p : EqProcessor) (input : List ℚ) :
    ((p.highBand input).1).length = input.length := by
  simp [EqProcessor.highBand, process_interleaved_length]

/-- Length of the band mix. -/
theorem mixBands_length (low mid high : Bool) :
    ∀ (a b c : List ℚ),
      (mixBands low mid high a b c).length = min a.length (min b.length c.length)
  | [], _, _ => by simp [mixBands]
  | _ :: _, [], _ => by simp [mixBands]
  | _ :: _, _ :: _, [] => by simp [mixBands]
  | x :: xs, y :: ys, z :: zs => by
    simp [mixBands, mixBands_length low mid high xs ys zs]
    omega

/-- Sample `i` of the band mix is the kill-switched sum of the bands. -/
theorem mixBands_getD (low mid high : Bool) :
    ∀ (a b c : List ℚ) (i : ℕ), i < a.length → i < b.length → i < c.length →
      (mixBands low mid high a b c).getD i 0
        = (if low then 0 else a.getD i 0) + (if mid then 0 else b.getD i 0)
          + (if high then 0 else c.getD i 0)
  | [], _, _, _, ha, _, _ => by simp at ha
  | _ :: _, [], _, _, _, hb, _ => by simp at hb
  | _ :: _, _ :: _, [], _, _, _, hc => by simp at hc
  | x :: xs, y :: ys, z :: zs, 0, _, _, _ => by simp [mixBands]
  | x :: xs, y :: ys, z :: zs, i + 1, ha, hb, hc => by
    simp only [mixBands, List.getD_cons_succ]
    exact mixBands_getD low mid high xs ys zs i (by simpa using ha)
      (by simpa using hb) (by simpa using hc)

/-- Claim C2: for every input buffer and EQ cut state, `EqProcessor::process`
is the identity (state untouched) when all three cuts are false; zeroes the
first `frames * 2` samples (leaving the rest) when all three cuts are true;
and otherwise emits, at each sample `i < frames * 2`, the sum of the three
band cascades (each applied to a copy of the input) whose cut flag is
false. -/
theorem claim_C2_eq_process (p : EqProcessor) (buffer : List ℚ) (frames : ℕ)
    (h : frames * 2 ≤ buffer.length) :
    (p.cut_state.low = false → p.cut_state.mid = false → p.cut_state.high = false →
      p.process buffer frames = (buffer, p)) ∧
    (p.cut_state.low = true → p.cut_state.mid = true → p.cut_state.high = true →
      ((p.process buffer frames).1).take (frames * 2) = List.replicate (frames * 2) 0 ∧
      ((p.process buffer frames).1).drop (frames * 2) = buffer.drop (frames * 2) ∧
      (p.process buffer frames).2 = p) ∧
    (¬ (p.cut_state.low = false ∧ p.cut_state.mid = false ∧ p.cut_state.high = false) →
     ¬ (p.cut_state.low = true ∧ p.cut_state.mid = true ∧ p.cut_state.high = true) →
      ∀ i, i < frames * 2 →
        ((p.process buffer frames).1).getD i 0
          = (if p.cut_state.low then 0
             else ((p.lowBand (buffer.take (frames * 2))).1).getD i 0)
            + (if p.cut_state.mid then 0
               else ((p.midBand (buffer.take (frames * 2))).1).getD i 0)
            + (if p.cut_state.high then 0
               else ((p.highBand (buffer.take (frames * 2))).1).getD i 0)) := by
  refine ⟨?_, ?_, ?_⟩
  · intro h1 h2 h3
    simp [EqProcessor.process, h1, h2, h3]
  · intro h1 h2 h3
    have hne : ¬ (p.cut_state.low = false ∧ p.cut_state.mid = false ∧
        p.cut_state.high = false) := by simp [h1]
    have hout : p.process buffer frames
        = (List.replicate (frames * 2) 0 ++ buffer.drop (frames * 2), p) := by
      simp [EqProcessor.process, h1, h2, h3]
    rw [hout]
    refine ⟨?_, ?_, rfl⟩
    · exact List.take_left' (List.length_replicate _ _)
    · exact List.drop_left' (List.length_replicate _ _)
  · intro hn1 hn2 i hi
    have hout : (p.process buffer frames).1
        = mixBands p.cut_state.low p.cut_state.mid p.cut_state.high
            ((p.lowBand (buffer.take (frames * 2))).1)
            ((p.midBand (buffer.take (frames * 2))).1)
            ((p.highBand (buffer.take (frames * 2))).1)
          ++ buffer.drop (frames * 2) := by
      simp only [EqProcessor.process]
      rw [if_neg hn1, if_neg hn2]
    have htake : (buffer.take (frames * 2)).length = frames * 2 := by
      rw [List.length_take]
      omega
    have hmlen : (mixBands p.cut_state.low p.cut_state.mid p.cut_state.high
        ((p.lowBand (buffer.take (frames * 2))).1)
        ((p.midBand (buffer.take (frames * 2))).1)
        ((p.highBand (buffer.take (frames * 2))).1)).length = frames * 2 := by
      rw [mixBands_length, lowBand_length, midBand_length, highBand_length, htake]
      omega
    rw [hout, List.getD_append _ _ _ _ (by omega)]
    exact mixBands_getD _ _ _ _ _ _ i
      (by rw [lowBand_length, htake]; omega)
      (by rw [midBand_length, htake]; omega)
      (by rw [highBand_length, htake]; omega)

/-- A concrete EQ processor (zeroed filters, all cuts off) for the C2
witness. -/
def eqWitnessProcessor : EqProcessor :=
  { low_filter1 := ⟨⟨0, 0, 0, 0⟩, ⟨0, 0, 0, 0⟩⟩
    low_filter2 := ⟨⟨0, 0, 0, 0⟩, ⟨0, 0, 0, 0⟩⟩
    low_coeffs := ⟨1, 0, 0, 0, 0⟩
    mid_filter_low1 := ⟨⟨0, 0, 0, 0⟩, ⟨0, 0, 0, 0⟩⟩
    mid_filter_low2 := ⟨⟨0, 0, 0, 0⟩, ⟨0, 0, 0, 0⟩⟩
    mid_filter_high1 := ⟨⟨0, 0, 0, 0⟩, ⟨0, 0, 0, 0⟩⟩
    mid_filter_high2 := ⟨⟨0, 0, 0, 0⟩, ⟨0, 0, 0, 0⟩⟩
    mid_coeffs_low := ⟨1, 0, 0, 0, 0⟩
    mid_coeffs_high := ⟨1, 0, 0, 0, 0⟩
    high_filter1 := ⟨⟨0, 0, 0, 0⟩, ⟨0, 0, 0, 0⟩⟩
    high_filter2 := ⟨⟨0, 0, 0, 0⟩, ⟨0, 0, 0, 0⟩⟩
    high_coeffs := ⟨1, 0, 0, 0, 0⟩
    cut_state := ⟨false, false, false⟩ }

/-- Witness for C2: with no cuts active, a concrete one-frame buffer passes
through unchanged. -/
theorem claim_C2_witness :
    1 * 2 ≤ ([1, 2] : List ℚ).length ∧
    eqWitnessProcessor.process [1, 2] 1 = ([1, 2], eqWitnessProcessor) :=
  ⟨by norm_num,
   (claim_C2_eq_process eqWitnessProcessor [1, 2] 1 (by norm_num)).1 rfl rfl rfl⟩

/-! ## Claim C3: output length and clamping -/

/-- `clampQ · (-1) 1` always lands in `[-1, 1]`. -/
theorem clampQ_bounds (x : ℚ) : -1 ≤ clampQ x (-1) 1 ∧ clampQ x (-1) 1 ≤ 1 :=
  ⟨le_max_left _ _, max_le (by norm_num) (min_le_right _ _)⟩

/-- Routing one frame only overwrites entries, never changes the length. -/
theorem route_frame_length (cfg : ChannelConfig) (mix buffer_a buffer_b : List ℚ)
    (out_ch : ℕ) (out : List ℚ) (frame : ℕ) :
    (route_frame cfg mix buffer_a buffer_b out_ch out frame).length = out.length := by
  unfold route_frame
  repeat' split
  all_goals simp_all [List.length_set]

/-- Folding the per-frame routing over any frame list keeps the length. -/
theorem foldl_route_frame_length (cfg : ChannelConfig)
    (mix buffer_a buffer_b : List ℚ) (out_ch : ℕ) :
    ∀ (l : List ℕ) (out : List ℚ),
      (l.foldl (fun o fr => route_frame cfg mix buffer_a buffer_b out_ch o fr) out).length
        = out.length
  | [], _ => rfl
  | fr :: rest, out => by
    rw [List.foldl_cons,
      foldl_route_frame_length cfg mix buffer_a buffer_b out_ch rest _,
      route_frame_length]

/-- `map_channels` emits exactly `frames * output_channels` samples. -/
theorem map_channels_length (mix : List ℚ) (frames output_channels : ℕ)
    (cfg : ChannelConfig) (buffer_a buffer_b : List ℚ) :
    (map_channels mix frames output_channels cfg buffer_a buffer_b).length
      = frames * output_channels := by
  unfold map_channels
  rw [List.length_map, foldl_route_frame_length, List.length_replicate]

/-- Every sample emitted by `map_channels` lies in `[-1, 1]` (the final
clamp). -/
theorem map_channels_bounds (mix : List ℚ) (frames output_channels : ℕ)
    (cfg : ChannelConfig) (buffer_a buffer_b : List ℚ) :
    ∀ x ∈ map_channels mix frames output_channels cfg buffer_a buffer_b,
      -1 ≤ x ∧ x ≤ 1 := by
  intro x hx
  unfold map_channels at hx
  obtain ⟨y, _, rfl⟩ := List.mem_map.mp hx
  exact clampQ_bounds y

/-- Claim C3: every processed chunk emits exactly
`frames * output_channels` samples, all within `[-1, 1]` — both through
`map_channels` (which clamps as its final step) and through the stereo
fast path (which clamps the mix buffer and copies it verbatim). -/
theorem claim_C3_output_length_and_clamp (cfg : ChannelConfig)
    (output_channels : ℕ) (mix buffer_a buffer_b : List ℚ) (frames : ℕ)
    (hmix : mix.length = frames * 2) :
    (map_channels mix frames output_channels cfg buffer_a buffer_b).length
      = frames * output_channels ∧
    (∀ x ∈ map_channels mix frames output_channels cfg buffer_a buffer_b,
      -1 ≤ x ∧ x ≤ 1) ∧
    (chunk_output cfg output_channels mix buffer_a buffer_b frames).length
      = frames * output_channels ∧
    (∀ x ∈ chunk_output cfg output_channels mix buffer_a buffer_b frames,
      -1 ≤ x ∧ x ≤ 1) := by
  refine ⟨map_channels_length mix frames output_channels cfg buffer_a buffer_b,
    map_channels_bounds mix frames output_channels cfg buffer_a buffer_b, ?_, ?_⟩
  · unfold chunk_output
    by_cases hn : needs_channel_mapping cfg output_channels = true
    · rw [if_pos hn]
      exact map_channels_length mix frames output_channels cfg buffer_a buffer_b
    · rw [if_neg hn]
      have h2 : output_channels = 2 := by
        by_contra hne
        apply hn
        unfold needs_channel_mapping
        simp [hne]
      rw [List.length_map, hmix, h2]
  · unfold chunk_output
    by_cases hn : needs_channel_mapping cfg output_channels = true
    · rw [if_pos hn]
      exact map_channels_bounds mix frames output_channels cfg buffer_a buffer_b
    · rw [if_neg hn]
      intro x hx
      obtain ⟨y, _, rfl⟩ := List.mem_map.mp hx
      exact clampQ_bounds y

/-- Witness for C3: one stereo frame through the default configuration. -/
theorem claim_C3_witness :
    ([5, -3] : List ℚ).length = 1 * 2 ∧
    (chunk_output ChannelConfig.init 2 [5, -3] [] [] 1).length = 1 * 2 ∧
    (∀ x ∈ chunk_output ChannelConfig.init 2 [5, -3] [] [] 1, -1 ≤ x ∧ x ≤ 1) := by
  have h := claim_C3_output_length_and_clamp ChannelConfig.init 2 [5, -3] [] [] 1 rfl
  exact ⟨rfl, h.2.2.1, h.2.2.2⟩

/-! ## Claim C8: beat detector BPM range and confidence range -/

/-- The first octave-folding loop only stops at or above 80 BPM. -/
theorem fold_up_ge : ∀ b : ℚ, 0 < b → 80 ≤ fold_up b := by
  intro b
  induction b using fold_up.induct with
  | case1 b h ih =>
    intro _
    rw [fold_up, dif_pos h]
    exact ih (by linarith [h.1])
  | case2 b h =>
    intro hb
    rw [fold_up, dif_neg h]
    rcases not_and_or.mp h with h1 | h2
    · exact absurd hb h1
    · linarith [not_lt.mp h2]

/-- The second octave-folding loop only stops at or below 170 BPM. -/
theorem fold_down_le : ∀ b : ℚ, fold_down b ≤ 170 := by
  intro b
  induction b using fold_down.induct with
  | case1 b h ih =>
    rw [fold_down, dif_pos h]
    exact ih
  | case2 b h =>
    rw [fold_down, dif_neg h]
    exact not_lt.mp h

/-- Halving from above 170 never drops below 80. -/
theorem fold_down_ge : ∀ b : ℚ, 80 ≤ b → 80 ≤ fold_down b := by
  intro b
  induction b using fold_down.induct with
  | case1 b h ih =>
    intro _
    rw [fold_down, dif_pos h]
    exact ih (by linarith)
  | case2 b h =>
    intro hb
    rw [fold_down, dif_neg h]
    exact hb

/-- Rounding to 2 decimals keeps a value of `[80, 170]` inside `[80, 170]`. -/
theorem round_to_2_bounds (x : ℚ) (h80 : 80 ≤ x) (h170 : x ≤ 170) :
    80 ≤ round_to_2 x ∧ round_to_2 x ≤ 170 := by
  unfold round_to_2
  have hlo : (8000 : ℤ) ≤ round (x * 100) := by
    rw [round_eq]
    apply Int.le_floor.mpr
    push_cast
    linarith
  have hhi : round (x * 100) ≤ (17000 : ℤ) := by
    rw [round_eq]
    have hf : (Int.floor (x * 100 + 1/2) : ℚ) < 17001 :=
      lt_of_le_of_lt (Int.floor_le _) (by linarith)
    have : Int.floor (x * 100 + 1/2) < 17001 := by exact_mod_cast hf
    omega
  constructor
  · rw [le_div_iff₀ (by norm_num : (0:ℚ) < 100)]
    calc (80 : ℚ) * 100 = ((8000 : ℤ) : ℚ) := by norm_num
      _ ≤ _ := by exact_mod_cast hlo
  · rw [div_le_iff₀ (by norm_num : (0:ℚ) < 100)]
    calc ((round (x * 100) : ℤ) : ℚ) ≤ ((17000 : ℤ) : ℚ) := by exact_mod_cast hhi
      _ = 170 * 100 := by norm_num

/-- The rounded BPM has exactly 2 decimal places: 100 times it is an
integer. -/
theorem round_to_2_mul_int (x : ℚ) : ∃ k : ℤ, round_to_2 x * 100 = k :=
  ⟨round (x * 100), by unfold round_to_2; field_simp⟩

/-- A fold of `min` over non-negative values from a non-negative seed stays
non-negative. -/
theorem foldl_min_nonneg :
    ∀ (l : List ℚ) (init : ℚ), 0 ≤ init → (∀ x ∈ l, 0 ≤ x) →
      0 ≤ l.foldl min init
  | [], _, hi, _ => hi
  | x :: xs, init, hi, hl => by
    rw [List.foldl_cons]
    exact foldl_min_nonneg xs _ (le_min hi (hl x (by simp)))
      (fun y hy => hl y (by simp [hy]))

/-- Each per-beat score lies in `[0, 1]`. -/
theorem beat_score_bounds (grid_beats : List ℚ) (detected : ℚ) :
    0 ≤ beat_score grid_beats detected ∧ beat_score grid_beats detected ≤ 1 := by
  unfold beat_score
  have hmd : 0 ≤ (grid_beats.map (fun grid => |detected - grid|)).foldl min f32Max := by
    apply foldl_min_nonneg
    · norm_num [f32Max]
    · intro x hx
      obtain ⟨g, _, rfl⟩ := List.mem_map.mp hx
      exact abs_nonneg _
  dsimp only
  split
  next hlt =>
    constructor
    · positivity
    · rw [div_le_one (by norm_num : (0:ℚ) < 1/20)]
      linarith
  next => norm_num

/-- The grid confidence always lands in `[0, 5.32]`. -/
theorem calculate_grid_confidence_bounds (detected_beats grid_beats : List ℚ) :
    0 ≤ calculate_grid_confidence detected_beats grid_beats ∧
    calculate_grid_confidence detected_beats grid_beats ≤ 532/100 := by
  unfold calculate_grid_confidence
  split
  · norm_num
  next hne =>
    have hdb : detected_beats ≠ [] := fun h => hne (Or.inl h)
    have hlen : 0 < (detected_beats.length : ℚ) := by
      have := List.length_pos.mpr hdb
      exact_mod_cast this
    have hsum0 : 0 ≤ (detected_beats.map (beat_score grid_beats)).sum := by
      apply List.sum_nonneg
      intro x hx
      obtain ⟨d, _, rfl⟩ := List.mem_map.mp hx
      exact (beat_score_bounds grid_beats d).1
    have hsum1 : (detected_beats.map (beat_score grid_beats)).sum
        ≤ (detected_beats.length : ℚ) := by
      have h := List.sum_le_card_nsmul (detected_beats.map (beat_score grid_beats)) 1
        (by intro x hx
            obtain ⟨d, _, rfl⟩ := List.mem_map.mp hx
            exact (beat_score_bounds grid_beats d).2)
      rw [List.length_map] at h
      simpa using h
    have havg0 : 0 ≤ (detected_beats.map (beat_score grid_beats)).sum
        / (detected_beats.length : ℚ) := div_nonneg hsum0 (le_of_lt hlen)
    have havg1 : (detected_beats.map (beat_score grid_beats)).sum
        / (detected_beats.length : ℚ) ≤ 1 := (div_le_one hlen).mpr hsum1
    constructor
    · exact mul_nonneg (le_max_right _ _) (by norm_num)
    · calc max (1 - (detected_beats.map (beat_score grid_beats)).sum
            / (detected_beats.length : ℚ)) 0 * (532/100)
          ≤ 1 * (532/100) := by
            apply mul_le_mul_of_nonneg_right _ (by norm_num)
            exact max_le (by linarith) (by norm_num)
        _ = 532/100 := one_mul _

/-- Claim C8: whenever `BeatDetector::detect` returns a result, the BPM it
reports — the raw (positive) tempo estimate folded by octaves into the DJ
range and rounded to 2 decimal places — lies in `[80, 170]` and is an
integer multiple of 0.01, and the grid confidence score lies in
`[0, 5.32]`. -/
theorem claim_C8_beat_detector_output (b : ℚ) (hb : 0 < b)
    (detected_beats grid_beats : List ℚ) :
    80 ≤ refine_bpm b ∧ refine_bpm b ≤ 170 ∧
    (∃ k : ℤ, refine_bpm b * 100 = k) ∧
    0 ≤ calculate_grid_confidence detected_beats grid_beats ∧
    calculate_grid_confidence detected_beats grid_beats ≤ 532/100 := by
  have h1 : 80 ≤ fold_up b := fold_up_ge b hb
  have h2 : 80 ≤ fold_down (fold_up b) := fold_down_ge _ h1
  have h3 : fold_down (fold_up b) ≤ 170 := fold_down_le _
  have h4 := round_to_2_bounds _ h2 h3
  exact ⟨h4.1, h4.2, round_to_2_mul_int _,
    (calculate_grid_confidence_bounds detected_beats grid_beats).1,
    (calculate_grid_confidence_bounds detected_beats grid_beats).2⟩

/-- Witness for C8 at a concrete raw estimate of 197.3 BPM (folded to
98.65) and empty beat lists. -/
theorem claim_C8_witness :
    (0 : ℚ) < 1973/10 ∧ 80 ≤ refine_bpm (1973/10) ∧ refine_bpm (1973/10) ≤ 170 :=
  ⟨by norm_num,
   (claim_C8_beat_detector_output (1973/10) (by norm_num) [] []).1,
   (claim_C8_beat_detector_output (1973/10) (by norm_num) [] []).2.1⟩

end Sujay
